import Mathlib

set_option maxHeartbeats 1000000

/-!
Verification development for the meeting-recorder core (`app/` package):
the per-session reorder-and-drain sequencer (`workers.py: ChunkProcessor`),
the session store (`storage.py: SessionStorage`), the summary-trigger policy
(`storage.py: should_generate_summary`), the finalization path, the extractive
summarizer guard (`summarizer.py: TextSummarizer.summarize`), and the
WebSocket broadcaster (`main.py: WebSocketManager`).

Modelling choices, stated once:
* Machine state is in-memory only; the filesystem side effects (chunk files,
  metadata JSON, transcript files) carry no information read back by the core
  and are dropped.
* The external collaborators (ffmpeg transcode, Vosk recognizer, LexRank
  engine) are abstracted as function parameters collected in `Env`; the
  recognizer is modelled as a function of the converted chunk, which is
  adequate because admitted chunks always reach it in strict sequence order.
* Python `dict` objects are modelled as association lists with
  last-write-wins insertion; only lookup/insert/delete are ever used by the
  source, never iteration order.
* Timestamps (`datetime.now().timestamp()`) are modelled as naturals.
* Each arrival is processed to completion before the next one starts; this is
  the sequential (single-interleaving-unit) semantics of the asynchronous
  tasks the transport spawns.
-/

/-- Number of maximal non-whitespace runs in a character list; the Boolean
tracks whether the previous character was inside a word. -/
def countWords : List Char → Bool → Nat
  | [], _ => 0
  | c :: rest, inWord =>
    if c.isWhitespace then countWords rest false
    else (if inWord then 0 else 1) + countWords rest true

/-- Number of words of a string under Python `str.split()` semantics (split
on whitespace runs, dropping empty fragments), as computed by
`len(s.split())` in `storage.py` and `workers.py`. -/
def wordCountOf (s : String) : Nat := countWords s.data false

/-- Python `str.strip()`: remove leading and trailing whitespace. -/
def pyStrip (s : String) : String :=
  let noLead := s.data.dropWhile (fun c => c.isWhitespace)
  String.mk ((noLead.reverse.dropWhile (fun c => c.isWhitespace)).reverse)

/-- Lookup in an association list, modelling Python `dict.get`. -/
def assocGet {κ α : Type} [DecidableEq κ] (k : κ) : List (κ × α) → Option α
  | [] => none
  | p :: rest => if p.1 = k then some p.2 else assocGet k rest

/-- Deletion of a key, modelling Python `del d[k]`. -/
def assocErase {κ α : Type} [DecidableEq κ] (k : κ) : List (κ × α) → List (κ × α)
  | [] => []
  | p :: rest => if p.1 = k then assocErase k rest else p :: assocErase k rest

/-- Insertion with last-write-wins overwrite, modelling Python `d[k] = v`. -/
def assocInsert {κ α : Type} [DecidableEq κ] (k : κ) (v : α) (l : List (κ × α)) : List (κ × α) :=
  (k, v) :: assocErase k l

theorem assocGet_erase {κ α : Type} [DecidableEq κ] (k j : κ) (l : List (κ × α)) :
    assocGet k (assocErase j l) = if k = j then none else assocGet k l := by
  induction l with
  | nil => simp [assocErase, assocGet]
  | cons p rest ih =>
    by_cases hpj : p.1 = j
    · rw [show assocErase j (p :: rest) = assocErase j rest by simp [assocErase, hpj]]
      rw [ih]
      by_cases hkj : k = j
      · simp [hkj]
      · have hpk : ¬ p.1 = k := fun h => hkj (by rw [← h, hpj])
        simp [assocGet, hpk, hkj]
    · rw [show assocErase j (p :: rest) = p :: assocErase j rest by simp [assocErase, hpj]]
      by_cases hpk : p.1 = k
      · have hkj : ¬ k = j := fun h => hpj (by rw [hpk, h])
        simp [assocGet, hpk, hkj]
      · simp [assocGet, hpk, ih]

theorem assocGet_insert {κ α : Type} [DecidableEq κ] (k j : κ) (v : α) (l : List (κ × α)) :
    assocGet k (assocInsert j v l) = if k = j then some v else assocGet k l := by
  by_cases h : k = j <;> simp [assocInsert, assocGet, h, assocGet_erase] <;> simp_all [eq_comm]

theorem assocGet_eq_none_iff {κ α : Type} [DecidableEq κ] (k : κ) (l : List (κ × α)) :
    assocGet k l = none ↔ ∀ p ∈ l, p.1 ≠ k := by
  induction l with
  | nil => simp [assocGet]
  | cons p rest ih =>
    by_cases h : p.1 = k <;> simp [assocGet, h, ih]

theorem assocGet_all_none {κ α : Type} [DecidableEq κ] (l : List (κ × α))
    (h : ∀ k, assocGet k l = none) : l = [] := by
  cases l with
  | nil => rfl
  | cons p rest =>
    have := (assocGet_eq_none_iff p.1 (p :: rest)).1 (h p.1) p (List.mem_cons_self _ _)
    exact absurd rfl this

theorem assocErase_length_le {κ α : Type} [DecidableEq κ] (k : κ) (l : List (κ × α)) :
    (assocErase k l).length ≤ l.length := by
  induction l with
  | nil => simp [assocErase]
  | cons p rest ih =>
    by_cases hpk : p.1 = k <;> simp [assocErase, hpk] <;> omega

theorem assocErase_length_lt {κ α : Type} [DecidableEq κ] (k : κ) (l : List (κ × α))
    (v : α) (h : assocGet k l = some v) : (assocErase k l).length < l.length := by
  induction l with
  | nil => simp [assocGet] at h
  | cons p rest ih =>
    by_cases hpk : p.1 = k
    · have := assocErase_length_le k rest
      simp [assocErase, hpk]
      omega
    · simp only [assocGet, hpk, if_false] at h
      have := ih h
      simp [assocErase, hpk]
      omega

/-- Session record, from `SessionStorage.create_session` in `storage.py`.
The fields `id`, `created_at`, `ended_at` and `chunks_received` carry no
behaviour relevant to any claim and are omitted; `status` is modelled by the
Boolean `ended`. Buffered chunk references are the stringified paths the
source stores. -/
structure Session where
  transcript : String
  summary : String
  expected_seq : Nat
  buffered_chunks : List (Nat × String)
  last_summary_time : Nat
  word_count : Nat
  ended : Bool
deriving Repr, DecidableEq

/-- Fresh session state as initialized by `create_session` (at creation
time `now`). -/
def create_session (now : Nat) : Session :=
  { transcript := ""
    summary := ""
    expected_seq := 0
    buffered_chunks := []
    last_summary_time := now
    word_count := 0
    ended := false }

/-- External collaborators and the clock, abstracted: ffmpeg conversion
(`_convert_to_wav`, keyed by sequence number and chunk path, returning the
converted path or failure), the per-session Vosk recognizer
(`transcribe_chunk`, returning recognized text or nothing), the summarizer,
and the current timestamp. -/
structure Env where
  convert : Nat → String → Option String
  transcribe : String → Option String
  summarize : String → String
  now : Nat

/-- `SUMMARY_WORD_THRESHOLD` from `config.py`. -/
def SUMMARY_WORD_THRESHOLD : Nat := 200

/-- `SUMMARY_TIME_INTERVAL` from `config.py`. -/
def SUMMARY_TIME_INTERVAL : Nat := 30

/-- `SessionStorage.update_transcript` with `append=True`: the only mode the
pipeline uses. Appends with a single separating space and recomputes
`word_count`. -/
def update_transcript (s : Session) (text : String) : Session :=
  let t := s.transcript ++ " " ++ text
  { s with transcript := t, word_count := wordCountOf t }

/-- `SessionStorage.update_summary`: replaces the summary wholesale and
resets `last_summary_time` to the current time. -/
def update_summary (s : Session) (summary : String) (now : Nat) : Session :=
  { s with summary := summary, last_summary_time := now }

/-- `SessionStorage.increment_expected_seq`. -/
def increment_expected_seq (s : Session) : Session :=
  { s with expected_seq := s.expected_seq + 1 }

/-- `SessionStorage.buffer_future_chunk`: store the chunk reference under its
sequence number, overwriting any existing entry. -/
def buffer_future_chunk (s : Session) (seq : Nat) (chunk : String) : Session :=
  { s with buffered_chunks := assocInsert seq chunk s.buffered_chunks }

/-- `SessionStorage.remove_buffered_chunk`. -/
def remove_buffered_chunk (s : Session) (seq : Nat) : Session :=
  { s with buffered_chunks := assocErase seq s.buffered_chunks }

/-- `SessionStorage.should_generate_summary` for an existing session: trigger
when the stored word count reaches the threshold, or when the time since the
last summary reaches the interval and the word count exceeds the hard-coded
floor of 50. -/
def should_generate_summary (now : Nat) (word_threshold time_interval : Nat)
    (s : Session) : Bool :=
  if word_threshold ≤ s.word_count then true
  else if time_interval ≤ now - s.last_summary_time ∧ 50 < s.word_count then true
  else false

/-- `ChunkProcessor._generate_and_broadcast_summary`: abort when the
transcript is empty or under 30 words; otherwise run the summarizer and store
its result only when it is non-empty (Python truthiness of `if summary:`). -/
def generate_and_broadcast_summary (env : Env) (s : Session) : Session :=
  if s.transcript = "" ∨ wordCountOf s.transcript < 30 then s
  else
    let summary := env.summarize s.transcript
    if summary = "" then s
    else update_summary s summary env.now

/-- Steps 2 onward of `ChunkProcessor.process_chunk` case 3, after a
successful conversion: transcribe, and when text was recognized (Python
truthiness) append it to the transcript and evaluate the summary trigger. -/
def transcribe_and_update (env : Env) (s : Session) (wav : String) : Session :=
  match env.transcribe wav with
  | none => s
  | some text =>
    if text = "" then s
    else if should_generate_summary env.now SUMMARY_WORD_THRESHOLD SUMMARY_TIME_INTERVAL
        (update_transcript s text)
    then generate_and_broadcast_summary env (update_transcript s text)
    else update_transcript s text

theorem gbs_buffered_chunks (env : Env) (s : Session) :
    (generate_and_broadcast_summary env s).buffered_chunks = s.buffered_chunks := by
  unfold generate_and_broadcast_summary update_summary
  split <;> simp <;> split <;> simp

theorem gbs_expected_seq (env : Env) (s : Session) :
    (generate_and_broadcast_summary env s).expected_seq = s.expected_seq := by
  unfold generate_and_broadcast_summary update_summary
  split <;> simp <;> split <;> simp

theorem gbs_transcript (env : Env) (s : Session) :
    (generate_and_broadcast_summary env s).transcript = s.transcript := by
  unfold generate_and_broadcast_summary update_summary
  split <;> simp <;> split <;> simp

theorem tau_buffered_chunks (env : Env) (s : Session) (wav : String) :
    (transcribe_and_update env s wav).buffered_chunks = s.buffered_chunks := by
  unfold transcribe_and_update
  split
  · rfl
  · split
    · rfl
    · split
      · rw [gbs_buffered_chunks]; rfl
      · rfl

theorem tau_expected_seq (env : Env) (s : Session) (wav : String) :
    (transcribe_and_update env s wav).expected_seq = s.expected_seq := by
  unfold transcribe_and_update
  split
  · rfl
  · split
    · rfl
    · split
      · rw [gbs_expected_seq]; rfl
      · rfl

theorem tau_transcript (env : Env) (s : Session) (wav : String) :
    (transcribe_and_update env s wav).transcript =
      match env.transcribe wav with
      | none => s.transcript
      | some text => if text = "" then s.transcript else s.transcript ++ " " ++ text := by
  unfold transcribe_and_update
  split
  · rfl
  · split
    · simp
    · split
      · rw [gbs_transcript]; simp [update_transcript]
      · simp [update_transcript]

/-- The drain loop of `ChunkProcessor._process_buffered_chunks` together with
the trailing recursive call at the end of `process_chunk` case 3. In the
source, `process_chunk` ends with `_process_buffered_chunks`, whose body
removes `buffered_chunks[expected_seq]` and re-enters `process_chunk` (which
necessarily takes case 3, since the sequence number equals `expected_seq` and
nothing changed it in between), and whose `while` loop then re-checks the
buffer; because the inner pass only returns once no chunk is buffered at the
then-current `expected_seq` (or after a failed conversion, in which case the
entry was already removed), the mutual recursion collapses to this single
recursive drain. -/
def drain (env : Env) (s : Session) : Session :=
  match h : assocGet s.expected_seq s.buffered_chunks with
  | none => s
  | some chunk =>
    let s' := remove_buffered_chunk s s.expected_seq
    match env.convert s'.expected_seq chunk with
    | none => s'
    | some wav => drain env (increment_expected_seq (transcribe_and_update env s' wav))
termination_by s.buffered_chunks.length
decreasing_by
  simp only [increment_expected_seq, tau_buffered_chunks, remove_buffered_chunk]
  exact assocErase_length_lt _ _ _ h

/-- `ChunkProcessor.process_chunk`: the three-way admission split of the
reorder sequencer, followed (for the expected chunk) by the conversion step —
whose failure returns early, before the sequence number is advanced — the
transcription/append/summary pass, the increment of `expected_seq`, and the
drain of newly ready buffered chunks. -/
def process_chunk (env : Env) (s : Session) (seq : Nat) (chunk : String) : Session :=
  if seq < s.expected_seq then s
  else if s.expected_seq < seq then buffer_future_chunk s seq chunk
  else
    match env.convert seq chunk with
    | none => s
    | some wav => drain env (increment_expected_seq (transcribe_and_update env s wav))

/-- Sequential processing of a list of arrivals (each arrival is the sequence
number of the chunk; the chunk reference is determined by `chunkOf`, matching
`save_chunk`, which derives the stored path from the sequence number). -/
def run_arrivals (env : Env) (chunkOf : Nat → String) (s : Session)
    (arrivals : List Nat) : Session :=
  arrivals.foldl (fun st q => process_chunk env st q (chunkOf q)) s

theorem drain_get_none (env : Env) (s : Session)
    (h : assocGet s.expected_seq s.buffered_chunks = none) : drain env s = s := by
  unfold drain
  split
  · rfl
  · rename_i chunk heq
    rw [h] at heq
    cases heq

theorem drain_get_some (env : Env) (s : Session) (chunk : String)
    (h : assocGet s.expected_seq s.buffered_chunks = some chunk) :
    drain env s =
      match env.convert s.expected_seq chunk with
      | none => remove_buffered_chunk s s.expected_seq
      | some wav =>
        drain env (increment_expected_seq
          (transcribe_and_update env (remove_buffered_chunk s s.expected_seq) wav)) := by
  conv_lhs => rw [drain]
  split
  · rename_i heq
    rw [h] at heq
    cases heq
  · rename_i chunk' heq
    rw [h] at heq
    cases heq
    rfl

/-- Demonstration environment: conversion and recognition always succeed and
return their input, the summarizer returns the empty string. -/
def env0 : Env :=
  { convert := fun _ c => some c
    transcribe := fun w => some w
    summarize := fun _ => ""
    now := 0 }

/-- C3: admission performs a three-way case split on `seq` versus
`expected_seq`. A stale arrival (`seq < expected_seq`) returns with the
session completely unchanged and no error; a future arrival
(`seq > expected_seq`) stores the chunk reference under key `seq` in
`buffered_chunks` with last-write-wins overwrite, and changes nothing else. -/
theorem c3_admission_split (env : Env) (s : Session) (seq : Nat) (chunk : String) :
    (seq < s.expected_seq → process_chunk env s seq chunk = s) ∧
    (s.expected_seq < seq →
      process_chunk env s seq chunk =
        { s with buffered_chunks := assocInsert seq chunk s.buffered_chunks } ∧
      assocGet seq (process_chunk env s seq chunk).buffered_chunks = some chunk ∧
      ∀ k, k ≠ seq →
        assocGet k (process_chunk env s seq chunk).buffered_chunks =
          assocGet k s.buffered_chunks) := by
  constructor
  · intro hlt
    unfold process_chunk
    rw [if_pos hlt]
  · intro hgt
    have hlt : ¬ seq < s.expected_seq := by omega
    have heq : process_chunk env s seq chunk =
        { s with buffered_chunks := assocInsert seq chunk s.buffered_chunks } := by
      unfold process_chunk
      rw [if_neg hlt, if_pos hgt]
      rfl
    refine ⟨heq, ?_, ?_⟩
    · rw [heq]
      simp [assocGet_insert]
    · intro k hk
      rw [heq]
      simp only []
      rw [assocGet_insert, if_neg hk]

/-- Witness for C3 at a concrete future arrival. -/
theorem c3_witness :
    process_chunk env0 (create_session 0) 5 "chunk5" =
      { create_session 0 with
        buffered_chunks := assocInsert 5 "chunk5" (create_session 0).buffered_chunks } :=
  ((c3_admission_split env0 (create_session 0) 5 "chunk5").2 (by decide)).1

/-- C4: the summary-trigger decision with word threshold 200, time interval
30 and floor 50 holds exactly when the word count reaches 200, or at least 30
seconds elapsed since the last summary and the word count exceeds 50; hence
200 or more words trigger on every evaluation, and 60 words trigger exactly
when 30 seconds have elapsed. -/
theorem c4_summary_trigger (now : Nat) (s : Session) :
    (should_generate_summary now 200 30 s = true ↔
      (200 ≤ s.word_count ∨ (30 ≤ now - s.last_summary_time ∧ 50 < s.word_count))) ∧
    (200 ≤ s.word_count → should_generate_summary now 200 30 s = true) ∧
    (s.word_count = 60 →
      (should_generate_summary now 200 30 s = true ↔ 30 ≤ now - s.last_summary_time)) := by
  unfold should_generate_summary
  refine ⟨?_, ?_, ?_⟩
  · by_cases h1 : 200 ≤ s.word_count
    · simp [h1]
    · by_cases h2 : 30 ≤ now - s.last_summary_time ∧ 50 < s.word_count
      · simp [h1, h2]
      · simp [h1, h2]
  · intro h1
    simp [h1]
  · intro h60
    have h1 : ¬ 200 ≤ s.word_count := by omega
    by_cases h2 : 30 ≤ now - s.last_summary_time
    · simp [h1, h2, h60]
    · simp [h1, h2, h60]

/-- Witness for C4: a 60-word session triggers exactly when 30 seconds have
elapsed since the last summary. -/
theorem c4_witness :
    should_generate_summary 100 200 30
        { transcript := ""
          summary := ""
          expected_seq := 0
          buffered_chunks := []
          last_summary_time := 50
          word_count := 60
          ended := false } = true ↔
      30 ≤ 100 - 50 :=
  (c4_summary_trigger 100
    { transcript := ""
      summary := ""
      expected_seq := 0
      buffered_chunks := []
      last_summary_time := 50
      word_count := 60
      ended := false }).2.2 rfl

/-- Environment whose ffmpeg conversion always fails. -/
def envConvFail : Env :=
  { convert := fun _ _ => none
    transcribe := fun w => some w
    summarize := fun _ => ""
    now := 0 }

/-- Counterexample to C2: when the conversion (transcode) of the expected
chunk fails, `process_chunk` returns early and `expected_seq` is NOT
advanced — here chunk 0 of a fresh session fails to convert and
`expected_seq` stays 0 instead of becoming 1. -/
theorem c2_counterexample :
    (process_chunk envConvFail (create_session 0) 0 "chunk0").expected_seq = 0 ∧
    (process_chunk envConvFail (create_session 0) 0 "chunk0").expected_seq ≠ 1 := by
  constructor <;> decide

/-- C2 (amended): for a chunk admitted with `seq` equal to `expected_seq`,
if the transcode fails the call returns with the session unchanged (so the
sequence stalls until that chunk is retransmitted); if the transcode
succeeds, `expected_seq` advances by exactly 1 regardless of the recognition
and summary outcomes (the quantification over `env` covers empty recognition
results and failing summarizers; an empty buffer isolates the single chunk's
pipeline pass from the subsequent drain). -/
theorem c2_expected_seq_advance (env : Env) (s : Session) (chunk : String) :
    (env.convert s.expected_seq chunk = none →
      process_chunk env s s.expected_seq chunk = s) ∧
    (∀ wav, env.convert s.expected_seq chunk = some wav → s.buffered_chunks = [] →
      (process_chunk env s s.expected_seq chunk).expected_seq = s.expected_seq + 1) := by
  constructor
  · intro hc
    unfold process_chunk
    rw [if_neg (Nat.lt_irrefl _), if_neg (Nat.lt_irrefl _), hc]
  · intro wav hc hbuf
    unfold process_chunk
    rw [if_neg (Nat.lt_irrefl _), if_neg (Nat.lt_irrefl _), hc]
    dsimp only
    have hb2 : (increment_expected_seq (transcribe_and_update env s wav)).buffered_chunks = [] := by
      simp only [increment_expected_seq, tau_buffered_chunks, hbuf]
    rw [drain_get_none env _ (by rw [hb2]; rfl)]
    simp only [increment_expected_seq, tau_expected_seq]

/-- Witness for C2 (amended): with a succeeding conversion, processing the
expected chunk of a fresh session advances `expected_seq` from 0 to 1. -/
theorem c2_witness :
    (process_chunk env0 (create_session 0) ((create_session 0).expected_seq)
        "chunk0").expected_seq = (create_session 0).expected_seq + 1 :=
  (c2_expected_seq_advance env0 (create_session 0) "chunk0").2 "chunk0" rfl rfl

/-- `ChunkProcessor.finalize_session` output: the resulting session state, the
number of `summarizer.summarize` invocations performed (instrumented so that
the forced-final-summary behaviour is observable), and the arguments of the
summary broadcasts emitted. -/
structure FinalizeResult where
  session : Session
  summarizeCalls : Nat
  summaryBroadcasts : List String
deriving Repr, DecidableEq

/-- `SessionStorage.mark_session_ended`. -/
def mark_session_ended (s : Session) : Session := { s with ended := true }

/-- The first step of `finalize_session`: append the recognizer's
end-of-stream flush text when it is non-empty (Python truthiness of
`if final_text:`; the recognizer returns `None` instead of empty text, both
modelled here). -/
def apply_final_text (final_text : Option String) (s : Session) : Session :=
  match final_text with
  | none => s
  | some t => if t = "" then s else update_transcript s t

/-- `ChunkProcessor.finalize_session`: flush the recognizer, then — when the
resulting transcript is non-empty and holds at least 10 words — run exactly
one summarize call, store its result unconditionally and broadcast it;
finally mark the session ended. -/
def finalize_session (summarizeFn : String → String) (final_text : Option String)
    (now : Nat) (s : Session) : FinalizeResult :=
  let s1 := apply_final_text final_text s
  if s1.transcript ≠ "" ∧ 10 ≤ wordCountOf s1.transcript then
    { session := mark_session_ended (update_summary s1 (summarizeFn s1.transcript) now)
      summarizeCalls := 1
      summaryBroadcasts := [summarizeFn s1.transcript] }
  else
    { session := mark_session_ended s1
      summarizeCalls := 0
      summaryBroadcasts := [] }

/-- Session holding a five-word transcript, as in the C5 scenario. -/
def fiveWordSession : Session :=
  { transcript := "alpha beta gamma delta epsilon"
    summary := ""
    expected_seq := 5
    buffered_chunks := []
    last_summary_time := 0
    word_count := 5
    ended := false }

/-- Counterexample to C5: a transcript of 5 words whose recognizer flush adds
6 more words reaches 11 words in total, which is NOT below the code's minimum
of 10, so finalization DOES perform a (single) forced summary call. -/
theorem c5_counterexample :
    wordCountOf (apply_final_text (some "zeta eta theta iota kappa mu")
      fiveWordSession).transcript = 11 ∧
    (finalize_session (fun _ => "SUMMARY") (some "zeta eta theta iota kappa mu")
      0 fiveWordSession).summarizeCalls = 1 := by
  constructor <;> decide

/-- C5 (amended): finalization performs exactly one Summarize call — issued
regardless of the SummaryPolicy — precisely when the post-flush transcript is
non-empty and holds at least 10 words (the code's minimum), and no call
otherwise; in particular the 5+6 = 11 word scenario is at or above the
minimum and produces exactly one call. -/
theorem c5_final_summary_count (summarizeFn : String → String)
    (final_text : Option String) (now : Nat) (s : Session) :
    (finalize_session summarizeFn final_text now s).summarizeCalls =
      if (apply_final_text final_text s).transcript ≠ "" ∧
          10 ≤ wordCountOf (apply_final_text final_text s).transcript
      then 1 else 0 := by
  unfold finalize_session
  split
  · rename_i h
    rw [if_pos h]
  · rename_i h
    rw [if_neg h]

/-- `TextSummarizer.summarize` from `summarizer.py`: return the empty string
when the input is empty (Python truthiness of `if not text`) or its stripped
length is under 50 characters; otherwise defer to the LexRank engine
(including its internal fallback), abstracted as the `lexrank` parameter. -/
def TextSummarizer.summarize (lexrank : String → String) (text : String) : String :=
  if text = "" ∨ (pyStrip text).length < 50 then ""
  else lexrank text

/-- C10: when the post-flush transcript holds at least 10 words but its text
is under 50 characters after stripping, the summarizer's guard returns the
empty string, and finalization stores it unconditionally as the session's
summary — replacing whatever summary was stored before — and broadcasts it. -/
theorem c10_finalize_overwrites_with_empty (lexrank : String → String)
    (final_text : Option String) (now : Nat) (s : Session)
    (hw : 10 ≤ wordCountOf (apply_final_text final_text s).transcript)
    (hc : (pyStrip (apply_final_text final_text s).transcript).length < 50) :
    (finalize_session (TextSummarizer.summarize lexrank) final_text now
      s).session.summary = "" ∧
    (finalize_session (TextSummarizer.summarize lexrank) final_text now
      s).summaryBroadcasts = [""] := by
  have hne : (apply_final_text final_text s).transcript ≠ "" := by
    intro h
    rw [h] at hw
    exact absurd hw (by decide)
  have hsum : TextSummarizer.summarize lexrank (apply_final_text final_text s).transcript = "" := by
    unfold TextSummarizer.summarize
    rw [if_pos (Or.inr hc)]
  unfold finalize_session
  rw [if_pos ⟨hne, hw⟩, hsum]
  exact ⟨rfl, rfl⟩

/-- Session with a five-word transcript and a previously stored non-empty
summary, for the C10 witness. -/
def shortTranscriptSession : Session :=
  { transcript := "w1 w2 w3 w4 w5"
    summary := "OLD SUMMARY"
    expected_seq := 5
    buffered_chunks := []
    last_summary_time := 0
    word_count := 5
    ended := false }

/-- Witness for C10: 11 words totalling under 50 characters wipe the
previously stored summary at finalization. -/
theorem c10_witness :
    10 ≤ wordCountOf (apply_final_text (some "w6 w7 w8 w9 wa wb")
      shortTranscriptSession).transcript ∧
    (finalize_session (TextSummarizer.summarize (fun t => t))
      (some "w6 w7 w8 w9 wa wb") 3 shortTranscriptSession).session.summary = "" :=
  ⟨by decide,
    (c10_finalize_overwrites_with_empty (fun t => t) (some "w6 w7 w8 w9 wa wb") 3
      shortTranscriptSession (by decide) (by decide)).1⟩

/-- The session table of `SessionStorage` (`self.sessions`). -/
structure Storage where
  sessions : List (String × Session)
deriving Repr, DecidableEq

/-- Response body of the `end_session` endpoint (status plus the final
transcript and summary; the metadata echo is omitted). -/
structure EndResponse where
  status : String
  transcript : String
  summary : String
deriving Repr, DecidableEq

/-- `SessionStorage.get_transcript`: defaults to the empty string for an
unknown session id. -/
def get_transcript_top (st : Storage) (sid : String) : String :=
  match assocGet sid st.sessions with
  | some s => s.transcript
  | none => ""

/-- `SessionStorage.get_summary`: defaults to the empty string for an unknown
session id. -/
def get_summary_top (st : Storage) (sid : String) : String :=
  match assocGet sid st.sessions with
  | some s => s.summary
  | none => ""

/-- The `POST /session/sid/end` endpoint (`main.py: end_session`): run
`finalize_session` — whose storage mutations are membership-guarded no-ops
when the id is unknown and whose internal failures are all caught — then
answer with the stored transcript and summary. The `Except.error` branch
models the HTTP 500 raised when an exception escapes the handler; no
in-memory execution path reaches it. -/
def end_session (summarizeFn : String → String) (final_text : Option String)
    (now : Nat) (st : Storage) (sid : String) : Except String EndResponse :=
  let st' : Storage :=
    match assocGet sid st.sessions with
    | some s =>
      { sessions :=
          assocInsert sid (finalize_session summarizeFn final_text now s).session st.sessions }
    | none => st
  Except.ok
    { status := "ended"
      transcript := get_transcript_top st' sid
      summary := get_summary_top st' sid }

/-- Chunk processing at the storage level: for a known session id every
storage operation targets that session's record, so the call lifts
`process_chunk`; for an unknown id, `get_expected_seq` defaults to 0 and
every mutation (`update_transcript`, `increment_expected_seq`,
`buffer_future_chunk`, ...) is a membership-guarded no-op, so the table is
left unchanged and no error is raised. -/
def process_chunk_top (env : Env) (st : Storage) (sid : String) (seq : Nat)
    (chunk : String) : Storage :=
  match assocGet sid st.sessions with
  | some s => { sessions := assocInsert sid (process_chunk env s seq chunk) st.sessions }
  | none => st

/-- Counterexample to C6: ending a session id that was never created is not
rejected — the endpoint completes with status `ended` and empty
transcript/summary instead of surfacing an UnknownSession error. -/
theorem c6_counterexample :
    end_session (fun _ => "") none 0 { sessions := [] } "ghost" =
      Except.ok { status := "ended", transcript := "", summary := "" } := rfl

/-- C6 (amended): operations on an unknown session id are NOT surfaced as
rejected: `FinalizeSession` completes with status `ended` and empty
transcript and summary, and chunk ingestion processing leaves the session
table unchanged without error (the upload endpoint's only failure for an
unknown id is an incidental filesystem error from the missing session
directory, outside the in-memory model). -/
theorem c6_unknown_session_completes (env : Env) (summarizeFn : String → String)
    (final_text : Option String) (now : Nat) (st : Storage) (sid : String)
    (seq : Nat) (chunk : String) (h : assocGet sid st.sessions = none) :
    end_session summarizeFn final_text now st sid =
      Except.ok { status := "ended", transcript := "", summary := "" } ∧
    process_chunk_top env st sid seq chunk = st := by
  constructor
  · unfold end_session
    rw [h]
    dsimp only
    unfold get_transcript_top get_summary_top
    rw [h]
  · unfold process_chunk_top
    rw [h]

/-- Witness for C6 (amended) at a concrete empty session table. -/
theorem c6_witness :
    end_session (fun _ => "") none 0 { sessions := [] } "nosuch" =
      Except.ok { status := "ended", transcript := "", summary := "" } ∧
    process_chunk_top env0 { sessions := [] } "nosuch" 0 "c" = { sessions := [] } :=
  c6_unknown_session_completes env0 (fun _ => "") none 0 { sessions := [] } "nosuch" 0 "c" rfl

/-- The send loop of `WebSocketManager.broadcast` in `main.py`: attempt
delivery to every connection in registry order, partitioning them into the
successfully delivered ones and the failed (to-be-disconnected) ones, both in
registry order. -/
def broadcast_attempt {α : Type} (deliver : α → Bool) : List α → List α × List α
  | [] => ([], [])
  | c :: rest =>
    let p := broadcast_attempt deliver rest
    if deliver c then (c :: p.1, p.2) else (p.1, c :: p.2)

/-- The connection registry of `WebSocketManager`. -/
structure WebSocketManager (α : Type) where
  active_connections : List α
deriving Repr, DecidableEq

/-- `WebSocketManager.disconnect`: remove a connection from the registry if
present. -/
def WebSocketManager.disconnect {α : Type} [DecidableEq α]
    (m : WebSocketManager α) (c : α) : WebSocketManager α :=
  if c ∈ m.active_connections then { active_connections := m.active_connections.erase c }
  else m

/-- `WebSocketManager.broadcast`: no-op on an empty registry; otherwise
attempt delivery to every connection (a failure for one never aborts the
loop), then disconnect every connection whose delivery failed. Returns the
updated manager and the list of connections that received the event. -/
def WebSocketManager.broadcast {α : Type} [DecidableEq α] (deliver : α → Bool)
    (m : WebSocketManager α) : WebSocketManager α × List α :=
  if m.active_connections = [] then (m, [])
  else
    let p := broadcast_attempt deliver m.active_connections
    (p.2.foldl WebSocketManager.disconnect m, p.1)

theorem broadcast_attempt_fst {α : Type} (deliver : α → Bool) (l : List α) :
    (broadcast_attempt deliver l).1 = l.filter deliver := by
  induction l with
  | nil => rfl
  | cons c rest ih =>
    by_cases h : deliver c <;> simp [broadcast_attempt, List.filter, h, ih]

theorem broadcast_attempt_snd {α : Type} (deliver : α → Bool) (l : List α) :
    (broadcast_attempt deliver l).2 = l.filter (fun c => !deliver c) := by
  induction l with
  | nil => rfl
  | cons c rest ih =>
    by_cases h : deliver c <;> simp [broadcast_attempt, List.filter, h, ih]

theorem disconnect_active {α : Type} [DecidableEq α] (m : WebSocketManager α) (c : α) :
    (m.disconnect c).active_connections = m.active_connections.erase c := by
  unfold WebSocketManager.disconnect
  split
  · rfl
  · rename_i hc
    rw [List.erase_of_not_mem hc]

theorem foldl_disconnect_active {α : Type} [DecidableEq α] :
    ∀ (toRemove : List α) (m : WebSocketManager α),
      (toRemove.foldl WebSocketManager.disconnect m).active_connections =
        toRemove.foldl (fun l c => l.erase c) m.active_connections := by
  intro toRemove
  induction toRemove with
  | nil => intro m; rfl
  | cons c rest ih =>
    intro m
    simp only [List.foldl_cons]
    rw [ih, disconnect_active]

theorem foldl_erase_eq_diff {α : Type} [DecidableEq α] :
    ∀ (toRemove l : List α),
      toRemove.foldl (fun l c => l.erase c) l = l.diff toRemove := by
  intro toRemove
  induction toRemove with
  | nil => intro l; simp
  | cons c rest ih =>
    intro l
    simp only [List.foldl_cons]
    rw [ih, List.diff_cons]

/-- C8: over any registry without duplicate connections, a delivery failure
to one subscriber neither blocks nor fails delivery to the rest — the
received set is exactly the subscribers whose delivery succeeds, in registry
order — and every subscriber whose delivery failed is removed from the
registry, hence absent from all subsequent publishes. -/
theorem c8_broadcast_isolation {α : Type} [DecidableEq α] (deliver : α → Bool)
    (m : WebSocketManager α) (hnd : m.active_connections.Nodup) :
    (WebSocketManager.broadcast deliver m).2 = m.active_connections.filter deliver ∧
    (WebSocketManager.broadcast deliver m).1.active_connections =
      m.active_connections.filter deliver ∧
    ∀ c ∈ m.active_connections, deliver c = false →
      c ∉ (WebSocketManager.broadcast deliver m).1.active_connections := by
  have hactive : (WebSocketManager.broadcast deliver m).1.active_connections =
      m.active_connections.filter deliver := by
    unfold WebSocketManager.broadcast
    split
    · rename_i he
      rw [he]
      rfl
    · dsimp only
      rw [broadcast_attempt_snd, foldl_disconnect_active, foldl_erase_eq_diff,
        hnd.diff_eq_filter]
      apply List.filter_congr
      intro x hx
      simp only [List.mem_filter, decide_eq_true_eq, decide_not]
      by_cases hdx : deliver x
      · simp [hx, hdx]
      · simp [hx, hdx]
  refine ⟨?_, hactive, ?_⟩
  · unfold WebSocketManager.broadcast
    split
    · rename_i he
      rw [he]
      rfl
    · dsimp only
      rw [broadcast_attempt_fst]
  · intro c hc hfail
    rw [hactive]
    intro hmem
    rw [List.mem_filter] at hmem
    rw [hfail] at hmem
    exact Bool.false_ne_true hmem.2

/-- Witness for C8: among three subscribers where delivery to subscriber 1
fails, subscribers 0 and 2 both receive the event and subscriber 1 is removed
from the registry. -/
theorem c8_witness :
    (WebSocketManager.broadcast (fun c => c != 1)
      ({ active_connections := [0, 1, 2] } : WebSocketManager Nat)).2 = [0, 2] ∧
    (WebSocketManager.broadcast (fun c => c != 1)
      ({ active_connections := [0, 1, 2] } : WebSocketManager Nat)).1.active_connections =
      [0, 2] := by
  have h := c8_broadcast_isolation (fun c => c != 1)
    ({ active_connections := [0, 1, 2] } : WebSocketManager Nat) (by decide)
  exact ⟨h.1.trans (by decide), h.2.1.trans (by decide)⟩

theorem gbs_summary_ne (env : Env) (s : Session) (h : s.summary ≠ "") :
    (generate_and_broadcast_summary env s).summary ≠ "" := by
  unfold generate_and_broadcast_summary
  split
  · exact h
  · dsimp only
    split
    · exact h
    · rename_i hne
      simpa [update_summary] using hne

theorem tau_summary_ne (env : Env) (s : Session) (wav : String) (h : s.summary ≠ "") :
    (transcribe_and_update env s wav).summary ≠ "" := by
  unfold transcribe_and_update
  split
  · exact h
  · split
    · exact h
    · split
      · exact gbs_summary_ne env _ (by simpa [update_transcript] using h)
      · simpa [update_transcript] using h

theorem drain_summary_ne (env : Env) :
    ∀ (n : Nat) (s : Session), s.buffered_chunks.length ≤ n → s.summary ≠ "" →
      (drain env s).summary ≠ "" := by
  intro n
  induction n with
  | zero =>
    intro s hlen hs
    have hbuf : s.buffered_chunks = [] := List.length_eq_zero.1 (Nat.le_zero.1 hlen)
    rw [drain_get_none env s (by rw [hbuf]; rfl)]
    exact hs
  | succ n ih =>
    intro s hlen hs
    cases hg : assocGet s.expected_seq s.buffered_chunks with
    | none =>
      rw [drain_get_none env s hg]
      exact hs
    | some chunk =>
      rw [drain_get_some env s chunk hg]
      cases env.convert s.expected_seq chunk with
      | none => simpa [remove_buffered_chunk] using hs
      | some wav =>
        apply ih
        · have := assocErase_length_lt s.expected_seq s.buffered_chunks chunk hg
          simp only [increment_expected_seq, tau_buffered_chunks, remove_buffered_chunk]
          omega
        · have : (remove_buffered_chunk s s.expected_seq).summary ≠ "" := by
            simpa [remove_buffered_chunk] using hs
          simpa [increment_expected_seq] using
            tau_summary_ne env (remove_buffered_chunk s s.expected_seq) wav this

/-- C9: during incremental chunk processing the stored summary can only be
replaced by a non-empty text. The summary-generation step leaves the session
untouched when the transcript is under 30 words, and likewise when the
summarizer's result is empty; consequently a non-empty summary never
regresses to empty across any `process_chunk` call. -/
theorem c9_summary_non_regression (env : Env) (s : Session) :
    (wordCountOf s.transcript < 30 → generate_and_broadcast_summary env s = s) ∧
    (env.summarize s.transcript = "" → generate_and_broadcast_summary env s = s) ∧
    (∀ seq chunk, s.summary ≠ "" → (process_chunk env s seq chunk).summary ≠ "") := by
  refine ⟨?_, ?_, ?_⟩
  · intro h30
    unfold generate_and_broadcast_summary
    rw [if_pos (Or.inr h30)]
  · intro hemp
    unfold generate_and_broadcast_summary
    split
    · rfl
    · dsimp only
      rw [if_pos hemp]
  · intro seq chunk hs
    unfold process_chunk
    split
    · exact hs
    · split
      · simpa [buffer_future_chunk] using hs
      · split
        · exact hs
        · rename_i wav hw
          apply drain_summary_ne env
            (increment_expected_seq (transcribe_and_update env s wav)).buffered_chunks.length _
            (Nat.le_refl _)
          simpa [increment_expected_seq] using tau_summary_ne env s wav hs

/-- Session with a non-empty stored summary, for the C9 witness. -/
def summarizedSession : Session :=
  { transcript := "t1 t2 t3"
    summary := "EXISTING SUMMARY"
    expected_seq := 2
    buffered_chunks := []
    last_summary_time := 0
    word_count := 3
    ended := false }

/-- Witness for C9: a short transcript leaves the summary step inert, and the
non-empty stored summary survives processing a chunk. -/
theorem c9_witness :
    generate_and_broadcast_summary env0 summarizedSession = summarizedSession ∧
    (process_chunk env0 summarizedSession 2 "c2").summary ≠ "" := by
  have h := c9_summary_non_regression env0 summarizedSession
  exact ⟨h.1 (by decide), h.2.2 2 "c2" (by decide)⟩

theorem mem_assocErase {κ α : Type} [DecidableEq κ] (k : κ) (l : List (κ × α))
    (p : κ × α) (h : p ∈ assocErase k l) : p ∈ l ∧ p.1 ≠ k := by
  induction l with
  | nil => simp [assocErase] at h
  | cons q rest ih =>
    by_cases hqk : q.1 = k
    · rw [show assocErase k (q :: rest) = assocErase k rest by simp [assocErase, hqk]] at h
      have := ih h
      exact ⟨List.mem_cons_of_mem _ this.1, this.2⟩
    · rw [show assocErase k (q :: rest) = q :: assocErase k rest by simp [assocErase, hqk]] at h
      rcases List.mem_cons.1 h with hq | hq
      · exact ⟨by rw [hq]; exact List.mem_cons_self _ _, by rw [hq]; exact hqk⟩
      · have := ih hq
        exact ⟨List.mem_cons_of_mem _ this.1, this.2⟩

/-- Invariant of C7: every buffered key lies strictly above the session's
current expected sequence number. -/
def BufferInv (s : Session) : Prop :=
  ∀ p ∈ s.buffered_chunks, s.expected_seq < p.1

theorem drain_buffer_inv (env : Env) :
    ∀ (n : Nat) (s : Session), s.buffered_chunks.length ≤ n →
      (∀ p ∈ s.buffered_chunks, s.expected_seq ≤ p.1) → BufferInv (drain env s) := by
  intro n
  induction n with
  | zero =>
    intro s hlen hge
    have hbuf : s.buffered_chunks = [] := List.length_eq_zero.1 (Nat.le_zero.1 hlen)
    rw [drain_get_none env s (by rw [hbuf]; rfl)]
    intro p hp
    rw [hbuf] at hp
    cases hp
  | succ n ih =>
    intro s hlen hge
    cases hg : assocGet s.expected_seq s.buffered_chunks with
    | none =>
      rw [drain_get_none env s hg]
      intro p hp
      have hne := (assocGet_eq_none_iff _ _).1 hg p hp
      have := hge p hp
      omega
    | some chunk =>
      rw [drain_get_some env s chunk hg]
      cases env.convert s.expected_seq chunk with
      | none =>
        intro p hp
        simp only [remove_buffered_chunk] at hp ⊢
        have := mem_assocErase _ _ _ hp
        have := hge p this.1
        have hne := (mem_assocErase _ _ _ hp).2
        omega
      | some wav =>
        apply ih
        · have := assocErase_length_lt s.expected_seq s.buffered_chunks chunk hg
          simp only [increment_expected_seq, tau_buffered_chunks, remove_buffered_chunk]
          omega
        · intro p hp
          simp only [increment_expected_seq, tau_buffered_chunks, remove_buffered_chunk,
            tau_expected_seq] at hp ⊢
          have := mem_assocErase _ _ _ hp
          have := hge p this.1
          have hne := (mem_assocErase _ _ _ hp).2
          omega

theorem process_chunk_buffer_inv (env : Env) (s : Session) (seq : Nat) (chunk : String)
    (h : BufferInv s) : BufferInv (process_chunk env s seq chunk) := by
  unfold process_chunk
  split
  · exact h
  · split
    · rename_i hgt
      intro p hp
      simp only [buffer_future_chunk] at hp ⊢
      rcases List.mem_cons.1 hp with hq | hq
      · rw [hq]
        exact hgt
      · exact h p (mem_assocErase _ _ _ hq).1
    · split
      · exact h
      · rename_i hlt hgt wav hw
        apply drain_buffer_inv env
          (increment_expected_seq (transcribe_and_update env s wav)).buffered_chunks.length _
          (Nat.le_refl _)
        intro p hp
        simp only [increment_expected_seq, tau_buffered_chunks, tau_expected_seq] at hp ⊢
        have := h p hp
        omega

/-- Arrival stream with explicit chunk references, processed sequentially. -/
def run_arrival_events (env : Env) (s : Session) (events : List (Nat × String)) : Session :=
  events.foldl (fun st e => process_chunk env st e.1 e.2) s

theorem run_events_buffer_inv (env : Env) :
    ∀ (events : List (Nat × String)) (s : Session), BufferInv s →
      BufferInv (run_arrival_events env s events) := by
  intro events
  induction events with
  | nil => intro s h; exact h
  | cons e rest ih =>
    intro s h
    exact ih _ (process_chunk_buffer_inv env s e.1 e.2 h)

/-- C7: starting from a fresh session, after every arrival's processing pass
(including its drain) completes, the buffered-chunk map contains only keys
strictly greater than the current `expected_seq`; moreover any session state
satisfying this invariant still satisfies it after any further
`process_chunk` call. -/
theorem c7_pending_above_expected :
    (∀ (env : Env) (cnow : Nat) (events : List (Nat × String)),
      BufferInv (run_arrival_events env (create_session cnow) events)) ∧
    (∀ (env : Env) (s : Session) (seq : Nat) (chunk : String),
      BufferInv s → BufferInv (process_chunk env s seq chunk)) := by
  constructor
  · intro env cnow events
    apply run_events_buffer_inv
    intro p hp
    cases hp
  · intro env s seq chunk h
    exact process_chunk_buffer_inv env s seq chunk h

/-- Session with one buffered future chunk, for the C7 witness. -/
def bufferedSession : Session :=
  { transcript := ""
    summary := ""
    expected_seq := 1
    buffered_chunks := [(3, "c3")]
    last_summary_time := 0
    word_count := 0
    ended := false }

/-- Witness for C7 at a concrete session and arrival. -/
theorem c7_witness : BufferInv (process_chunk env0 bufferedSession 5 "c5") :=
  c7_pending_above_expected.2 env0 bufferedSession 5 "c5"
    (by intro p hp; simp only [bufferedSession, List.mem_singleton] at hp; subst hp; decide)

/-- Conversion (transcode) of chunk `i` succeeds. -/
def ConvOk (env : Env) (chunkOf : Nat → String) (i : Nat) : Prop :=
  ∃ wav, env.convert i (chunkOf i) = some wav

/-- Recognition of chunk `i` succeeds with non-empty text. -/
def RecOk (env : Env) (chunkOf : Nat → String) (i : Nat) : Prop :=
  ∀ wav, env.convert i (chunkOf i) = some wav →
    ∃ t, env.transcribe wav = some t ∧ t ≠ ""

/-- Transcript produced by delivering chunks `0..e-1` strictly in sequence
order through the pipeline (convert, transcribe, append when non-empty). -/
def ordered_transcript (env : Env) (chunkOf : Nat → String) : Nat → String
  | 0 => ""
  | e + 1 =>
    match env.convert e (chunkOf e) with
    | none => ordered_transcript env chunkOf e
    | some wav =>
      match env.transcribe wav with
      | none => ordered_transcript env chunkOf e
      | some text =>
        if text = "" then ordered_transcript env chunkOf e
        else ordered_transcript env chunkOf e ++ " " ++ text

theorem transcript_step (env : Env) (chunkOf : Nat → String) (e : Nat) (s : Session)
    (wav : String) (hconv : env.convert e (chunkOf e) = some wav)
    (ht : s.transcript = ordered_transcript env chunkOf e) :
    (transcribe_and_update env s wav).transcript = ordered_transcript env chunkOf (e + 1) := by
  rw [tau_transcript]
  conv_rhs => rw [ordered_transcript]
  rw [hconv]
  dsimp only
  cases htr : env.transcribe wav with
  | none => simp [ht]
  | some text =>
    by_cases h0 : text = "" <;> simp [h0, ht]

/-- Sequencer invariant tying a session state to the set `S` of sequence
numbers that have arrived so far: everything below `expected_seq` has
arrived, `expected_seq` itself has not, the buffer holds exactly the arrived
keys above `expected_seq` (with the chunk reference determined by the key),
and the transcript is the in-order transcript of the processed prefix. -/
def ChunkInv (env : Env) (chunkOf : Nat → String) (S : List Nat) (s : Session) : Prop :=
  (∀ i, i < s.expected_seq → i ∈ S) ∧
  s.expected_seq ∉ S ∧
  (∀ k, assocGet k s.buffered_chunks =
    if k ∈ S ∧ s.expected_seq < k then some (chunkOf k) else none) ∧
  s.transcript = ordered_transcript env chunkOf s.expected_seq

theorem chunk_inv_of_no_ready (env : Env) (chunkOf : Nat → String) (S : List Nat)
    (s : Session)
    (hg : assocGet s.expected_seq s.buffered_chunks = none)
    (h1 : ∀ i, i < s.expected_seq → i ∈ S)
    (h3 : ∀ k, assocGet k s.buffered_chunks =
      if k ∈ S ∧ s.expected_seq ≤ k then some (chunkOf k) else none)
    (h4 : s.transcript = ordered_transcript env chunkOf s.expected_seq) :
    ChunkInv env chunkOf S s := by
  have hes : s.expected_seq ∉ S := by
    intro hmem
    have h := h3 s.expected_seq
    rw [hg, if_pos ⟨hmem, Nat.le_refl _⟩] at h
    exact Option.noConfusion h
  refine ⟨h1, hes, ?_, h4⟩
  intro k
  rw [h3 k]
  by_cases hk : k ∈ S ∧ s.expected_seq < k
  · rw [if_pos hk, if_pos ⟨hk.1, Nat.le_of_lt hk.2⟩]
  · rw [if_neg hk]
    by_cases hk2 : k ∈ S ∧ s.expected_seq ≤ k
    · exfalso
      rcases hk2 with ⟨hkS, hke⟩
      by_cases hkeq : k = s.expected_seq
      · rw [hkeq] at hkS
        exact hes hkS
      · exact hk ⟨hkS, by omega⟩
    · rw [if_neg hk2]

theorem drain_chunk_inv (env : Env) (chunkOf : Nat → String) (S : List Nat) :
    ∀ (n : Nat) (s : Session), s.buffered_chunks.length ≤ n →
      (∀ i ∈ S, ConvOk env chunkOf i) →
      (∀ i, i < s.expected_seq → i ∈ S) →
      (∀ k, assocGet k s.buffered_chunks =
        if k ∈ S ∧ s.expected_seq ≤ k then some (chunkOf k) else none) →
      s.transcript = ordered_transcript env chunkOf s.expected_seq →
      ChunkInv env chunkOf S (drain env s) := by
  intro n
  induction n with
  | zero =>
    intro s hlen hok h1 h3 h4
    have hbuf : s.buffered_chunks = [] := List.length_eq_zero.1 (Nat.le_zero.1 hlen)
    have hg : assocGet s.expected_seq s.buffered_chunks = none := by rw [hbuf]; rfl
    rw [drain_get_none env s hg]
    exact chunk_inv_of_no_ready env chunkOf S s hg h1 h3 h4
  | succ n ih =>
    intro s hlen hok h1 h3 h4
    cases hg : assocGet s.expected_seq s.buffered_chunks with
    | none =>
      rw [drain_get_none env s hg]
      exact chunk_inv_of_no_ready env chunkOf S s hg h1 h3 h4
    | some chunk =>
      have hready : s.expected_seq ∈ S ∧ chunk = chunkOf s.expected_seq := by
        have h := h3 s.expected_seq
        rw [hg] at h
        by_cases hc : s.expected_seq ∈ S ∧ s.expected_seq ≤ s.expected_seq
        · rw [if_pos hc] at h
          exact ⟨hc.1, Option.some.inj h⟩
        · rw [if_neg hc] at h
          exact Option.noConfusion h
      obtain ⟨heS, hchunk⟩ := hready
      subst hchunk
      obtain ⟨wav, hconv⟩ := hok s.expected_seq heS
      rw [drain_get_some env s _ hg, hconv]
      dsimp only
      apply ih
      · have := assocErase_length_lt s.expected_seq s.buffered_chunks _ hg
        simp only [increment_expected_seq, tau_buffered_chunks, remove_buffered_chunk]
        omega
      · exact hok
      · intro i hi
        simp only [increment_expected_seq, tau_expected_seq, remove_buffered_chunk] at hi
        by_cases hie : i = s.expected_seq
        · rw [hie]
          exact heS
        · exact h1 i (by omega)
      · intro k
        simp only [increment_expected_seq, tau_buffered_chunks, tau_expected_seq,
          remove_buffered_chunk]
        rw [assocGet_erase]
        by_cases hke : k = s.expected_seq
        · rw [if_pos hke, hke]
          have : ¬ (s.expected_seq ∈ S ∧ s.expected_seq + 1 ≤ s.expected_seq) := by
            intro hcc
            omega
          rw [if_neg this]
        · rw [if_neg hke, h3 k]
          have hiff : (k ∈ S ∧ s.expected_seq ≤ k) ↔ (k ∈ S ∧ s.expected_seq + 1 ≤ k) := by
            constructor
            · rintro ⟨ha, hb⟩
              exact ⟨ha, by omega⟩
            · rintro ⟨ha, hb⟩
              exact ⟨ha, by omega⟩
          exact if_congr hiff rfl rfl
      · simp only [increment_expected_seq, tau_expected_seq, remove_buffered_chunk]
        have : (remove_buffered_chunk s s.expected_seq).transcript =
            ordered_transcript env chunkOf s.expected_seq := h4
        exact transcript_step env chunkOf s.expected_seq _ wav hconv this

theorem process_chunk_chunk_inv (env : Env) (chunkOf : Nat → String) (S : List Nat)
    (s : Session) (q : Nat)
    (hinv : ChunkInv env chunkOf S s) (hq : q ∉ S)
    (hok : ∀ i ∈ q :: S, ConvOk env chunkOf i) :
    ChunkInv env chunkOf (q :: S) (process_chunk env s q (chunkOf q)) := by
  obtain ⟨h1, h2, h3, h4⟩ := hinv
  unfold process_chunk
  by_cases hlt : q < s.expected_seq
  · exact absurd (h1 q hlt) hq
  · rw [if_neg hlt]
    by_cases hgt : s.expected_seq < q
    · rw [if_pos hgt]
      refine ⟨?_, ?_, ?_, ?_⟩
      · intro i hi
        simp only [buffer_future_chunk] at hi
        exact List.mem_cons_of_mem _ (h1 i hi)
      · simp only [buffer_future_chunk]
        intro hmem
        rcases List.mem_cons.1 hmem with he | he
        · omega
        · exact h2 he
      · intro k
        simp only [buffer_future_chunk]
        rw [assocGet_insert]
        by_cases hkq : k = q
        · rw [if_pos hkq]
          have hcond : k ∈ q :: S ∧ s.expected_seq < k :=
            ⟨by rw [hkq]; exact List.mem_cons_self _ _, by omega⟩
          rw [if_pos hcond, hkq]
        · rw [if_neg hkq, h3 k]
          apply if_congr _ rfl rfl
          constructor
          · rintro ⟨ha, hb⟩
            exact ⟨List.mem_cons_of_mem _ ha, hb⟩
          · rintro ⟨ha, hb⟩
            rcases List.mem_cons.1 ha with h | h
            · exact absurd h hkq
            · exact ⟨h, hb⟩
      · simpa [buffer_future_chunk] using h4
    · have heq : q = s.expected_seq := by omega
      subst heq
      obtain ⟨wav, hconv⟩ := hok s.expected_seq (List.mem_cons_self _ _)
      rw [if_neg hgt, hconv]
      dsimp only
      apply drain_chunk_inv env chunkOf (s.expected_seq :: S)
        (increment_expected_seq (transcribe_and_update env s wav)).buffered_chunks.length
        (increment_expected_seq (transcribe_and_update env s wav))
        (Nat.le_refl _) hok
      · intro i hi
        simp only [increment_expected_seq, tau_expected_seq] at hi
        by_cases hie : i = s.expected_seq
        · rw [hie]
          exact List.mem_cons_self _ _
        · exact List.mem_cons_of_mem _ (h1 i (by omega))
      · intro k
        simp only [increment_expected_seq, tau_buffered_chunks, tau_expected_seq]
        rw [h3 k]
        apply if_congr _ rfl rfl
        constructor
        · rintro ⟨ha, hb⟩
          exact ⟨List.mem_cons_of_mem _ ha, by omega⟩
        · rintro ⟨ha, hb⟩
          rcases List.mem_cons.1 ha with h | h
          · exact absurd hb (by omega)
          · exact ⟨h, by omega⟩
      · simp only [increment_expected_seq, tau_expected_seq]
        exact transcript_step env chunkOf s.expected_seq s wav hconv h4

/-- Sequential processing of arrivals whose chunk reference is determined by
the sequence number (as `save_chunk` derives the stored path from `seq`). -/
theorem run_arrivals_chunk_inv (env : Env) (chunkOf : Nat → String) :
    ∀ (arr S : List Nat) (s : Session),
      ChunkInv env chunkOf S s →
      (∀ p ∈ arr, p ∉ S) → arr.Nodup →
      (∀ i, i ∈ S ∨ i ∈ arr → ConvOk env chunkOf i) →
      ∃ T : List Nat, (∀ x, x ∈ T ↔ x ∈ S ∨ x ∈ arr) ∧
        ChunkInv env chunkOf T (run_arrivals env chunkOf s arr) := by
  intro arr
  induction arr with
  | nil =>
    intro S s hinv _ _ _
    exact ⟨S, fun x => by simp, hinv⟩
  | cons q rest ih =>
    intro S s hinv hfresh hnd hok
    have hstep := process_chunk_chunk_inv env chunkOf S s q hinv
      (hfresh q (List.mem_cons_self _ _))
      (fun i hi => hok i (by
        rcases List.mem_cons.1 hi with h | h
        · exact Or.inr (by rw [h]; exact List.mem_cons_self _ _)
        · exact Or.inl h))
    have hq_not_rest : q ∉ rest := (List.nodup_cons.1 hnd).1
    obtain ⟨T, hT, hinvT⟩ := ih (q :: S) (process_chunk env s q (chunkOf q)) hstep
      (fun p hp hmem => by
        rcases List.mem_cons.1 hmem with h | h
        · rw [h] at hp
          exact hq_not_rest hp
        · exact hfresh p (List.mem_cons_of_mem _ hp) h)
      (List.nodup_cons.1 hnd).2
      (fun i hi => hok i (by
        rcases hi with h | h
        · rcases List.mem_cons.1 h with h2 | h2
          · exact Or.inr (by rw [h2]; exact List.mem_cons_self _ _)
          · exact Or.inl h2
        · exact Or.inr (List.mem_cons_of_mem _ h)))
    refine ⟨T, ?_, hinvT⟩
    intro x
    rw [hT x]
    simp only [List.mem_cons]
    tauto

theorem run_perm_final (env : Env) (chunkOf : Nat → String) (cnow N : Nat)
    (arr : List Nat) (hperm : arr.Perm (List.range (N + 1)))
    (hconv : ∀ i, i ≤ N → ConvOk env chunkOf i) :
    (run_arrivals env chunkOf (create_session cnow) arr).expected_seq = N + 1 ∧
    (run_arrivals env chunkOf (create_session cnow) arr).buffered_chunks = [] ∧
    (run_arrivals env chunkOf (create_session cnow) arr).transcript =
      ordered_transcript env chunkOf (N + 1) := by
  have hmem : ∀ x, x ∈ arr ↔ x < N + 1 := fun x => hperm.mem_iff.trans List.mem_range
  have hnd : arr.Nodup := hperm.nodup_iff.2 (List.nodup_range _)
  have hinit : ChunkInv env chunkOf [] (create_session cnow) := by
    refine ⟨?_, ?_, ?_, rfl⟩
    · intro i hi
      exact absurd hi (Nat.not_lt_zero i)
    · simp
    · intro k
      simp [create_session, assocGet]
  obtain ⟨T, hT, hfin⟩ := run_arrivals_chunk_inv env chunkOf arr [] (create_session cnow) hinit
    (fun p _ => List.not_mem_nil p) hnd
    (fun i hi => by
      rcases hi with h | h
      · cases h
      · exact hconv i (by have := (hmem i).1 h; omega))
  obtain ⟨g1, g2, g3, g4⟩ := hfin
  have hTx : ∀ x, x ∈ T ↔ x < N + 1 := fun x => (hT x).trans (by simp [hmem x])
  have he_le : (run_arrivals env chunkOf (create_session cnow) arr).expected_seq ≤ N + 1 := by
    by_contra hgt
    push_neg at hgt
    have hm := g1 (N + 1) (by omega)
    have := (hTx (N + 1)).1 hm
    omega
  have he_ge : N + 1 ≤ (run_arrivals env chunkOf (create_session cnow) arr).expected_seq := by
    by_contra hlt
    push_neg at hlt
    exact g2 ((hTx _).2 (by omega))
  have he : (run_arrivals env chunkOf (create_session cnow) arr).expected_seq = N + 1 := by
    omega
  refine ⟨he, ?_, by rw [g4, he]⟩
  apply assocGet_all_none
  intro k
  rw [g3 k, if_neg]
  rintro ⟨hkT, hklt⟩
  have := (hTx k).1 hkT
  omega

/-- C1: for a single session and any arrival order of chunks `0..N`, if every
chunk transcodes successfully and is recognized with non-empty text, then once
all arrivals are processed `expected_seq` equals `N+1`, the buffered-chunk map
is empty, and the final transcript equals the transcript of the strictly
in-order delivery `0,1,...,N`. (The conclusion in fact only needs the
transcode hypothesis; the recognition hypothesis of the claim is carried but
unused, since an empty recognition affects both delivery orders equally.) -/
theorem c1_reorder_confluence (env : Env) (chunkOf : Nat → String) (cnow N : Nat)
    (arr : List Nat) (hperm : arr.Perm (List.range (N + 1)))
    (hconv : ∀ i, i ≤ N → ConvOk env chunkOf i)
    (hrec : ∀ i, i ≤ N → RecOk env chunkOf i) :
    (run_arrivals env chunkOf (create_session cnow) arr).expected_seq = N + 1 ∧
    (run_arrivals env chunkOf (create_session cnow) arr).buffered_chunks = [] ∧
    (run_arrivals env chunkOf (create_session cnow) arr).transcript =
      (run_arrivals env chunkOf (create_session cnow) (List.range (N + 1))).transcript := by
  obtain ⟨ha1, ha2, ha3⟩ := run_perm_final env chunkOf cnow N arr hperm hconv
  obtain ⟨hb1, hb2, hb3⟩ :=
    run_perm_final env chunkOf cnow N (List.range (N + 1)) (List.Perm.refl _) hconv
  exact ⟨ha1, ha2, by rw [ha3, hb3]⟩

/-- Chunk reference naming used by the C1 witness. -/
def chunkOf0 : Nat → String := fun _ => "c"

/-- Witness for C1: the out-of-order arrival `[1, 0]` of chunks `0..1`
converges to the in-order outcome. -/
theorem c1_witness :
    ([1, 0] : List Nat).Perm (List.range 2) ∧
    ((run_arrivals env0 chunkOf0 (create_session 0) [1, 0]).expected_seq = 2 ∧
      (run_arrivals env0 chunkOf0 (create_session 0) [1, 0]).buffered_chunks = [] ∧
      (run_arrivals env0 chunkOf0 (create_session 0) [1, 0]).transcript =
        (run_arrivals env0 chunkOf0 (create_session 0) (List.range 2)).transcript) := by
  refine ⟨by decide, ?_⟩
  exact c1_reorder_confluence env0 chunkOf0 0 1 [1, 0] (by decide)
    (fun i _ => ⟨"c", rfl⟩)
    (fun i _ => by
      intro wav hw
      injection hw with h
      subst h
      exact ⟨"c", rfl, by decide⟩)
